import Mathlib

/-!
Verification of the move-evaluation pipeline in `anki_othello.py`.

The external evaluator process (edax), the flashcard HTTP service and the
filesystem are external collaborators: they are modelled as explicit
parameters (an oracle function for the evaluator, an event trace for the
card submissions and the file deletion).  All character-class predicates
follow Python's semantics on ASCII text; exotic Unicode whitespace,
digits and case mappings are outside the model.
-/

/-- The evaluator-process boundary: a map from the full text written to the
process's standard input to the text read from its standard output, or an
error when the executable cannot be launched (`subprocess.Popen` raising). -/
def Oracle : Type := String → Except Unit String

/-- An oracle whose launch always succeeds, answering with `f`. -/
def pureOracle (f : String → String) : Oracle :=
  fun s => Except.ok (f s)

/-- CONFIG constant of the source: points difference to count as a blunder. -/
def EVAL_SWING_THRESHOLD : Int := 10

/-- Embedding of `run_edax` (source lines 16-37): the process receives
"level 25\n" + play_command + "hint 1\n" on standard input and its whole
standard output is returned.  Diagnostics on standard error are printed
only, and process cleanup has no observable effect in the model. -/
def run_edax (proc : Oracle) (play_command : String) : Except Unit String :=
  proc ("level 25\n" ++ play_command ++ "hint 1\n")

/-! ### Python `str.splitlines` (ASCII and BMP line breaks) -/

/-- Line-break characters recognised by Python `str.splitlines`
(besides the combined "\r\n"): \n, \r, \v, \f, FS, GS, RS, NEL, LS, PS. -/
def isLineBreak (c : Char) : Bool :=
  c == '\n' || c == '\r' || c.toNat == 11 || c.toNat == 12 || c.toNat == 28 ||
  c.toNat == 29 || c.toNat == 30 || c.toNat == 133 || c.toNat == 8232 || c.toNat == 8233

/-- Worker for `pySplitlines`; `acc` is the current line, reversed. -/
def pySplitlinesGo : List Char → List Char → List String
  | acc, [] => if acc = [] then [] else [String.mk acc.reverse]
  | acc, '\r' :: '\n' :: rest => String.mk acc.reverse :: pySplitlinesGo [] rest
  | acc, c :: rest =>
    if isLineBreak c then String.mk acc.reverse :: pySplitlinesGo [] rest
    else pySplitlinesGo (c :: acc) rest

/-- Python `str.splitlines`: no trailing empty line, "\r\n" is one break. -/
def pySplitlines (s : String) : List String :=
  pySplitlinesGo [] s.data

/-! ### The hint-line pattern of `parse_hint_output`

Model of the Python regular expression
`.*?\d+@\d+%\s+([+-]?\d+).*?\s([A-Ha-h][1-8])` under `re.match` semantics:
the lazy `.*?` takes the leftmost start where the remainder matches, the
greedy `\d+`/`\s+` runs are maximal (the character following each run can
never be a member of the run's class, so backtracking into a run cannot
succeed), and `.` matches every character except '\n'. -/

/-- `\s` on ASCII text (space, \t, \n, \r, \v, \f). -/
def isPySpace (c : Char) : Bool :=
  c == ' ' || c == '\t' || c == '\n' || c == '\r' || c.toNat == 11 || c.toNat == 12

/-- Maximal `\d*` run and the remaining characters. -/
def takeDigits : List Char → List Char × List Char
  | [] => ([], [])
  | c :: rest =>
    if c.isDigit then ((c :: (takeDigits rest).1), (takeDigits rest).2)
    else ([], c :: rest)

/-- Maximal `\s*` run and the remaining characters. -/
def takeSpaces : List Char → List Char × List Char
  | [] => ([], [])
  | c :: rest =>
    if isPySpace c then ((c :: (takeSpaces rest).1), (takeSpaces rest).2)
    else ([], c :: rest)

/-- Group-2 letter class `[A-Ha-h]`. -/
def isHintLetter (c : Char) : Bool :=
  (decide ('A' ≤ c) && decide (c ≤ 'H')) || (decide ('a' ≤ c) && decide (c ≤ 'h'))

/-- Row class `[1-8]`. -/
def isRowDigit (c : Char) : Bool :=
  decide ('1' ≤ c) && decide (c ≤ '8')

/-- Lazy `.*?\s([A-Ha-h][1-8])`: the leftmost occurrence of a whitespace
character followed by a board coordinate; `.` cannot cross a '\n'. -/
def findCoord : List Char → Option (List Char)
  | w :: c :: d :: rest =>
    if isPySpace w && isHintLetter c && isRowDigit d then some [c, d]
    else if w = '\n' then none
    else findCoord (c :: d :: rest)
  | _ => none

/-- `\s+([+-]?\d+).*?\s([A-Ha-h][1-8])`, returning (group 1, group 2). -/
def matchAfterPercent (s : List Char) : Option (List Char × List Char) :=
  if (takeSpaces s).1 = [] then none
  else
    match (takeSpaces s).2 with
    | [] => none
    | c :: rest =>
      if c = '+' ∨ c = '-' then
        if (takeDigits rest).1 = [] then none
        else
          match findCoord (takeDigits rest).2 with
          | some g2 => some (c :: (takeDigits rest).1, g2)
          | none => none
      else
        if (takeDigits (c :: rest)).1 = [] then none
        else
          match findCoord (takeDigits (c :: rest)).2 with
          | some g2 => some ((takeDigits (c :: rest)).1, g2)
          | none => none

/-- `\d+@\d+%` then the rest of the pattern, anchored at this position. -/
def matchAt (s : List Char) : Option (List Char × List Char) :=
  if (takeDigits s).1 = [] then none
  else
    match (takeDigits s).2 with
    | '@' :: s2 =>
      if (takeDigits s2).1 = [] then none
      else
        match (takeDigits s2).2 with
        | '%' :: s4 => matchAfterPercent s4
        | _ => none
    | _ => none

/-- `re.match(r".*?\d+@\d+%\s+([+-]?\d+).*?\s([A-Ha-h][1-8])", line)`:
try each start position from the left; the lazy prefix `.` cannot
consume a '\n'. -/
def matchHintLine : List Char → Option (List Char × List Char)
  | [] => none
  | c :: rest =>
    match matchAt (c :: rest) with
    | some r => some r
    | none => if c = '\n' then none else matchHintLine rest

/-! ### `int()` on the score capture and `str.upper` -/

/-- Numeric value of a digit run. -/
def digitsVal (cs : List Char) : Nat :=
  cs.foldl (fun a c => a * 10 + (c.toNat - 48)) 0

/-- A nonempty all-digit run parses; anything else does not. -/
def digitsToNat? (cs : List Char) : Option Nat :=
  if cs = [] then none
  else if cs.all Char.isDigit then some (digitsVal cs) else none

/-- Python `int()` restricted to the optional-sign digit strings the score
capture group can produce (surrounding whitespace and underscores never
occur in a capture of `[+-]?\d+`). -/
def pyInt (cs : List Char) : Option Int :=
  match cs with
  | [] => none
  | c :: rest =>
    if c = '+' then (digitsToNat? rest).map (fun n => (n : Int))
    else if c = '-' then (digitsToNat? rest).map (fun n => -(n : Int))
    else (digitsToNat? (c :: rest)).map (fun n => (n : Int))

/-- Python `str.upper` on ASCII text. -/
def pyUpper (s : String) : String :=
  String.mk (s.data.map Char.toUpper)

/-- The loop body of `parse_hint_output` (source lines 42-52): first
matching line wins; the move capture is uppercased; a score capture that
`int()` rejects becomes a missing score rather than an exception. -/
def parseLines : List String → Option String × Option Int
  | [] => (none, none)
  | line :: rest =>
    match matchHintLine line.data with
    | some (g1, g2) => (some (pyUpper (String.mk g2)), pyInt g1)
    | none => parseLines rest

/-- Embedding of `parse_hint_output` (source lines 39-52). -/
def parse_hint_output (output : String) : Option String × Option Int :=
  parseLines (pySplitlines output)

/-! ### `analyze_game` (source lines 55-119) -/

/-- An evaluation record, one per analyzed ply (the dict built at source
lines 84-93).  `best_move_before`/`best_reply_after_actual` store the
sentinel "-" when the corresponding parse produced no move. -/
structure Row where
  index : Nat
  color : String
  played : String
  eval_best_move : Int
  best_move_before : String
  eval_after_reply : Int
  best_reply_after_actual : String
  delta : Int
deriving DecidableEq, Repr

/-- Colour flip at source line 96: `color = "W" if color == "B" else "B"`. -/
def flipColor (color : String) : String :=
  if color = "B" then "W" else "B"

/-- `("play " + " ".join(seq) + "\n") if seq else ""`. -/
def playCmdOf (seq : List String) : String :=
  if seq = [] then "" else "play " ++ String.intercalate (" ") seq ++ "\n"

/-- The play command for the position before ply `i` (source line 66). -/
def playCmdBefore (moves : List String) (i : Nat) : String :=
  playCmdOf (moves.take i)

/-- The play command for the position after ply `i` (source line 67);
built unconditionally in the source. -/
def playCmdAfter (moves : List String) (i : Nat) : String :=
  "play " ++ String.intercalate (" ") (moves.take (i + 1)) ++ "\n"

/-- Full standard input of the before-position evaluator session. -/
def beforeScript (moves : List String) (i : Nat) : String :=
  "level 25\n" ++ playCmdBefore moves i ++ "hint 1\n"

/-- Full standard input of the after-position evaluator session. -/
def afterScript (moves : List String) (i : Nat) : String :=
  "level 25\n" ++ playCmdAfter moves i ++ "hint 1\n"

/-- One iteration of the analysis loop (source lines 63-93): query the
evaluator before and after the ply, default a missing score to 0, default
a missing move to "-", and build the record with
`delta = eval_best_move + eval_after_reply`. -/
def analyzeStep (proc : Oracle) (moves : List String) (i : Nat) (color move : String) :
    Except Unit Row :=
  match run_edax proc (playCmdBefore moves i) with
  | Except.error e => Except.error e
  | Except.ok raw_before =>
    match run_edax proc (playCmdAfter moves i) with
    | Except.error e => Except.error e
    | Except.ok raw_after =>
      let pb := parse_hint_output raw_before
      let pa := parse_hint_output raw_after
      Except.ok
        { index := i + 1, color := color, played := move,
          eval_best_move := pb.2.getD 0,
          best_move_before := pb.1.getD ("-"),
          eval_after_reply := pa.2.getD 0,
          best_reply_after_actual := pa.1.getD ("-"),
          delta := pb.2.getD 0 + pa.2.getD 0 }

/-- The `for i, move in enumerate(moves)` loop (source lines 59-96), with
the `if i >= 16: break` cap; a raised evaluator-launch error propagates. -/
def analyzeRowsAux (proc : Oracle) (moves : List String) :
    Nat → String → List String → Except Unit (List Row)
  | _, _, [] => Except.ok []
  | i, color, move :: rest =>
    if 16 ≤ i then Except.ok []
    else
      match analyzeStep proc moves i color move with
      | Except.error e => Except.error e
      | Except.ok row =>
        match analyzeRowsAux proc moves (i + 1) (flipColor color) rest with
        | Except.error e => Except.error e
        | Except.ok tail => Except.ok (row :: tail)

/-- The blunder filter of source line 117:
`[r for r in rows if r['delta'] >= threshold]`, with the threshold as the
configured constant. -/
def blunderFilter (threshold : Int) (rows : List Row) : List Row :=
  rows.filter (fun r => threshold ≤ r.delta)

/-- Embedding of `analyze_game` (source lines 55-119): builds the per-ply
records and the blunder list.  Console table printing is not modelled. -/
def analyze_game (proc : Oracle) (moves : List String) :
    Except Unit (List Row × List Row) :=
  match analyzeRowsAux proc moves 0 ("B") moves with
  | Except.error e => Except.error e
  | Except.ok rows => Except.ok (rows, blunderFilter EVAL_SWING_THRESHOLD rows)

/-- The record `analyzeStep` produces under a launchable oracle `f`
(proved equal in `analyzeStep_pure`). -/
def pureRow (f : String → String) (moves : List String) (i : Nat) (color move : String) : Row :=
  { index := i + 1, color := color, played := move,
    eval_best_move := (parse_hint_output (f (beforeScript moves i))).2.getD 0,
    best_move_before := (parse_hint_output (f (beforeScript moves i))).1.getD ("-"),
    eval_after_reply := (parse_hint_output (f (afterScript moves i))).2.getD 0,
    best_reply_after_actual := (parse_hint_output (f (afterScript moves i))).1.getD ("-"),
    delta := (parse_hint_output (f (beforeScript moves i))).2.getD 0 +
      (parse_hint_output (f (afterScript moves i))).2.getD 0 }

/-- The rows `analyzeRowsAux` produces under a launchable oracle
(proved equal in `analyzeRowsAux_pure`). -/
def buildRows (f : String → String) (moves : List String) :
    Nat → String → List String → List Row
  | _, _, [] => []
  | i, color, move :: rest =>
    if 16 ≤ i then []
    else pureRow f moves i color move :: buildRows f moves (i + 1) (flipColor color) rest

/-! ### `process_one_game` (source lines 148-177) and `main` (179-187) -/

/-- Python `\w` on ASCII text: letters, digits, underscore. -/
def isWordChar (c : Char) : Bool :=
  c.isAlphanum || c == '_'

/-- Findall letter class `[A-H]` (the text is uppercased first). -/
def isUpLetter (c : Char) : Bool :=
  decide ('A' ≤ c) && decide (c ≤ 'H')

/-- Whether the character before the current position is a word character
(no character at the very start of the text). -/
def prevIsWord : Option Char → Bool
  | none => false
  | some c => isWordChar c

/-- Whether the character after the candidate match is a word character. -/
def nextIsWord : List Char → Bool
  | [] => false
  | c :: _ => isWordChar c

/-- `re.findall(r"\b[A-H][1-8]\b", text)`: non-overlapping left-to-right
scan; a match needs a word boundary on both sides. -/
def findMoves : Option Char → List Char → List String
  | _, [] => []
  | _, [_] => []
  | prev, c :: d :: rest =>
    if isUpLetter c && isRowDigit d && !prevIsWord prev && !nextIsWord rest then
      String.mk [c, d] :: findMoves (some d) rest
    else
      findMoves (some c) (d :: rest)

/-- `re.findall(r"\b[A-H][1-8]\b", text.upper())` (source line 150). -/
def pyFindMoves (text : String) : List String :=
  findMoves none (pyUpper text).data

/-- Observable effects of `process_one_game`: a card submission attempt
(the AnkiConnect POST of `add_anki_card`, whose own failures are caught
and logged) and the game-file deletion attempt. -/
inductive Event where
  | card (sequence : String) (solution : String)
  | deleteFile
deriving DecidableEq, Repr

/-- The blunder loop of source lines 159-170: for each blunder, submit a
card for the prefix `moves[:idx-1]` joined without separator, unless the
recommended move is missing (falsy) or the "-" sentinel. -/
def cardEvents (moves : List String) : List Row → List Event
  | [] => []
  | b :: rest =>
    if b.best_move_before = "" ∨ b.best_move_before = "-" then cardEvents moves rest
    else
      Event.card (String.join ((moves.take (b.index - 1)))) b.best_move_before ::
        cardEvents moves rest

/-- Embedding of `process_one_game` (source lines 148-177) as the list of
its observable effects, in order: extract moves, return early (no
deletion) when none are found, analyze, submit one card per qualifying
blunder, then attempt deletion of the game file.  An uncaught evaluator
exception propagates, skipping everything after it. -/
def process_one_game (proc : Oracle) (text : String) : Except Unit (List Event) :=
  if pyFindMoves text = [] then Except.ok []
  else
    match analyze_game proc (pyFindMoves text) with
    | Except.error e => Except.error e
    | Except.ok (_, blunders) =>
      Except.ok (cardEvents (pyFindMoves text) blunders ++ [Event.deleteFile])

/-- The file loop of `main` (source lines 185-187), over the contents of
the discovered files: no exception handling, so a raised error aborts the
remaining iterations. -/
def mainLoop (proc : Oracle) : List String → Except Unit (List (List Event))
  | [] => Except.ok []
  | t :: rest =>
    match process_one_game proc t with
    | Except.error e => Except.error e
    | Except.ok evs =>
      match mainLoop proc rest with
      | Except.error e => Except.error e
      | Except.ok rs => Except.ok (evs :: rs)

/-- Observation for claim C3: how many input files the batch loop starts
processing before it stops (the first failing file is counted, files
after it are not reached). -/
def processedCount (proc : Oracle) : List String → Nat
  | [] => 0
  | t :: rest =>
    match process_one_game proc t with
    | Except.error _ => 1
    | Except.ok _ => 1 + processedCount proc rest

/-! ### The spec's `PositionEvaluator.evaluateTransition` (claim C2) -/

/-- Error taxonomy of spec section 7 relevant to a single transition. -/
inductive AnalysisError where
  | boardFormatError
  | inconclusiveEvaluation
deriving DecidableEq, Repr

/-- Modelled from the spec: `PositionEvaluator.evaluateTransition`
(spec 4.3) including its precondition check - the two-line input variant
of the program that implements the before/after pair check is not among
the source files, so the check is taken from the spec's words: the after
prefix must be the before prefix with exactly one move appended,
otherwise BoardFormatError; a parse yielding no move or no score is
InconclusiveEvaluation; otherwise the record carries
swing = before-score + after-score and the mover identity given by the
parity of the before-prefix length. -/
def evaluateTransition (f : String → String) (beforeMoves afterMoves : List String) :
    Except AnalysisError Row :=
  if afterMoves.length = beforeMoves.length + 1 ∧
      afterMoves.take beforeMoves.length = beforeMoves then
    let pb := parse_hint_output (f ("level 25\n" ++ playCmdOf beforeMoves ++ "hint 1\n"))
    let pa := parse_hint_output
      (f ("level 25\n" ++ ("play " ++ String.intercalate (" ") afterMoves ++ "\n") ++ "hint 1\n"))
    match pb.1, pb.2, pa.1, pa.2 with
    | some bm, some sb, some br, some sa =>
      Except.ok
        { index := afterMoves.length,
          color := if beforeMoves.length % 2 = 0 then "B" else "W",
          played := afterMoves.getLastD (""),
          eval_best_move := sb, best_move_before := bm,
          eval_after_reply := sa, best_reply_after_actual := br,
          delta := sb + sa }
    | _, _, _, _ => Except.error AnalysisError.inconclusiveEvaluation
  else Except.error AnalysisError.boardFormatError

/-! ### Formalizations of the claims under test (used only to refute them) -/

/-- Claim C1 as stated: every analyzed ply either yields a record whose
swing is exactly the sum of the two parsed scores (both present), or is
inconclusive and excluded from blunder consideration. -/
def specClaimC1 : Prop :=
  ∀ (f : String → String) (moves : List String) (rows bl : List Row),
    analyze_game (pureOracle f) moves = Except.ok (rows, bl) →
    ∀ i, i < min moves.length 16 →
      (∃ sb sa, (parse_hint_output (f (beforeScript moves i))).2 = some sb ∧
        (parse_hint_output (f (afterScript moves i))).2 = some sa ∧
        ∀ r ∈ rows, r.index = i + 1 → r.delta = sb + sa) ∨
      (∀ r ∈ bl, r.index ≠ i + 1)

/-- Claim C3 as stated: a failure while processing one input file never
aborts the batch, so every file of every batch gets processed. -/
def specClaimC3 : Prop :=
  ∀ (proc : Oracle) (files : List String), processedCount proc files = files.length

/-- Claim C4 as stated, at the code's signature (which has no ply-limit
parameter, so `plyLimit or len(sequence)` is `len(sequence)`): one record
per ply of the whole sequence, indices strictly increasing from 1. -/
def specClaimC4 : Prop :=
  ∀ (f : String → String) (moves : List String) (rows bl : List Row),
    analyze_game (pureOracle f) moves = Except.ok (rows, bl) →
    rows.length = moves.length ∧
    ∀ k (hk : k < rows.length), (rows.get ⟨k, hk⟩).index = k + 1

/-- An evaluator answering inconclusively for the empty-prefix query and
with a score-20 hint line for every other query. -/
def edaxStubC1 : String → String :=
  fun s => if s = "level 25\nhint 1\n" then "" else "x 1@2% 20 a1"

/-- The single record the analysis of ["A1"] produces under an evaluator
that always answers with an unparseable output. -/
def rowZero : Row :=
  { index := 1, color := "B", played := "A1", eval_best_move := 0,
    best_move_before := "-", eval_after_reply := 0, best_reply_after_actual := "-",
    delta := 0 }

/-- The single record the analysis of ["A1"] produces under `edaxStubC1`. -/
def rowC1 : Row :=
  { index := 1, color := "B", played := "A1", eval_best_move := 0,
    best_move_before := "-", eval_after_reply := 20, best_reply_after_actual := "A1",
    delta := 20 }

/-- The single record the analysis of ["A1"] produces under an evaluator
that always answers "s 1@1% 7 A1". -/
def rowSeven : Row :=
  { index := 1, color := "B", played := "A1", eval_best_move := 7,
    best_move_before := "A1", eval_after_reply := 7, best_reply_after_actual := "A1",
    delta := 14 }

/-! ### Helper lemmas: the parser -/

theorem parseLines_skip (pre rest : List String)
    (h : ∀ l ∈ pre, matchHintLine l.data = none) :
    parseLines (pre ++ rest) = parseLines rest := by
  induction pre with
  | nil => rfl
  | cons p pre ih =>
    have hp : matchHintLine p.data = none := h p (List.mem_cons_self p pre)
    simp only [List.cons_append, parseLines, hp]
    exact ih (fun l hl => h l (List.mem_cons_of_mem p hl))

theorem takeDigits_all (s : List Char) : (takeDigits s).1.all Char.isDigit = true := by
  induction s with
  | nil => rfl
  | cons c rest ih =>
    by_cases hc : c.isDigit
    · simp [takeDigits, hc, ih]
    · simp [takeDigits, hc]

theorem digitsToNat?_isSome (d : List Char) (h1 : d ≠ [])
    (h2 : d.all Char.isDigit = true) : ∃ n, digitsToNat? d = some n :=
  ⟨digitsVal d, by simp [digitsToNat?, h1, h2]⟩

theorem pyInt_digits (d : List Char) (h1 : d ≠ [])
    (h2 : d.all Char.isDigit = true) : ∃ n, pyInt d = some n := by
  cases d with
  | nil => exact absurd rfl h1
  | cons c rest =>
    have hc : c.isDigit = true := by
      simp only [List.all_cons, Bool.and_eq_true] at h2
      exact h2.1
    have hplus : ¬(c = '+') := by
      intro e
      rw [e] at hc
      exact absurd hc (by decide)
    have hminus : ¬(c = '-') := by
      intro e
      rw [e] at hc
      exact absurd hc (by decide)
    obtain ⟨n, hn⟩ := digitsToNat?_isSome (c :: rest) h1 h2
    exact ⟨n, by simp [pyInt, hplus, hminus, hn]⟩

theorem pyInt_signed (c : Char) (d : List Char) (hc : c = '+' ∨ c = '-')
    (h1 : d ≠ []) (h2 : d.all Char.isDigit = true) :
    ∃ n, pyInt (c :: d) = some n := by
  obtain ⟨n, hn⟩ := digitsToNat?_isSome d h1 h2
  rcases hc with hc | hc
  · subst hc
    exact ⟨n, by simp [pyInt, hn]⟩
  · subst hc
    exact ⟨-n, by simp [pyInt, hn]⟩

theorem matchAfterPercent_int (s g1 g2 : List Char)
    (h : matchAfterPercent s = some (g1, g2)) : ∃ n, pyInt g1 = some n := by
  unfold matchAfterPercent at h
  split at h
  · exact absurd h (by simp)
  · split at h
    · exact absurd h (by simp)
    · rename_i c rest heq
      split at h
      · rename_i hsign
        split at h
        · exact absurd h (by simp)
        · rename_i hrun
          split at h
          · rename_i g2' hg2
            rw [Option.some.injEq, Prod.mk.injEq] at h
            obtain ⟨h1, _⟩ := h
            subst h1
            exact pyInt_signed c _ hsign hrun (takeDigits_all rest)
          · exact absurd h (by simp)
      · split at h
        · exact absurd h (by simp)
        · rename_i hrun
          split at h
          · rename_i g2' hg2
            rw [Option.some.injEq, Prod.mk.injEq] at h
            obtain ⟨h1, _⟩ := h
            subst h1
            exact pyInt_digits _ hrun (takeDigits_all (c :: rest))
          · exact absurd h (by simp)

theorem matchAt_int (s g1 g2 : List Char)
    (h : matchAt s = some (g1, g2)) : ∃ n, pyInt g1 = some n := by
  unfold matchAt at h
  split at h
  · exact absurd h (by simp)
  · split at h
    · split at h
      · exact absurd h (by simp)
      · split at h
        · exact matchAfterPercent_int _ _ _ h
        · exact absurd h (by simp)
    · exact absurd h (by simp)

theorem matchHintLine_int (s g1 g2 : List Char)
    (h : matchHintLine s = some (g1, g2)) : ∃ n, pyInt g1 = some n := by
  induction s with
  | nil => exact absurd h (by simp [matchHintLine])
  | cons c rest ih =>
    unfold matchHintLine at h
    split at h
    · rename_i r hr
      rw [Option.some.injEq] at h
      subst h
      exact matchAt_int _ _ _ hr
    · split at h
      · exact absurd h (by simp)
      · exact ih h

/-! ### Helper lemmas: the analyzer under a launchable oracle -/

theorem analyzeStep_pure (f : String → String) (moves : List String) (i : Nat)
    (color move : String) :
    analyzeStep (pureOracle f) moves i color move =
      Except.ok (pureRow f moves i color move) := rfl

theorem analyzeRowsAux_pure (f : String → String) (moves : List String) :
    ∀ (l : List String) (i : Nat) (color : String),
      analyzeRowsAux (pureOracle f) moves i color l =
        Except.ok (buildRows f moves i color l) := by
  intro l
  induction l with
  | nil => intro i color; rfl
  | cons m rest ih =>
    intro i color
    by_cases hi : 16 ≤ i
    · simp [analyzeRowsAux, buildRows, hi]
    · simp [analyzeRowsAux, buildRows, hi, analyzeStep_pure, ih]

theorem analyze_game_pure (f : String → String) (moves : List String) :
    analyze_game (pureOracle f) moves =
      Except.ok (buildRows f moves 0 ("B") moves,
        blunderFilter EVAL_SWING_THRESHOLD (buildRows f moves 0 ("B") moves)) := by
  unfold analyze_game
  rw [analyzeRowsAux_pure]

theorem buildRows_length (f : String → String) (moves : List String) :
    ∀ (l : List String) (i : Nat) (color : String),
      (buildRows f moves i color l).length = min l.length (16 - i) := by
  intro l
  induction l with
  | nil => intro i color; simp [buildRows]
  | cons m rest ih =>
    intro i color
    by_cases hi : 16 ≤ i
    · have h0 : 16 - i = 0 := Nat.sub_eq_zero_of_le hi
      simp [buildRows, hi, h0]
    · simp only [buildRows, if_neg hi, List.length_cons, ih, List.length]
      omega

theorem buildRows_get (f : String → String) (moves : List String) :
    ∀ (l : List String) (i k : Nat) (color : String)
      (hk : k < (buildRows f moves i color l).length) (hl : k < l.length),
      (buildRows f moves i color l)[k] =
        pureRow f moves (i + k) (flipColor^[k] color) (l[k]) := by
  intro l
  induction l with
  | nil => intro i k color hk hl; simp [buildRows] at hk
  | cons m rest ih =>
    intro i k color hk hl
    by_cases hi : 16 ≤ i
    · simp [buildRows, hi] at hk
    · cases k with
      | zero => simp [buildRows, hi]
      | succ k' =>
        have hk' : k' < (buildRows f moves (i + 1) (flipColor color) rest).length := by
          simp only [buildRows, if_neg hi, List.length_cons] at hk
          omega
        have hl' : k' < rest.length := by
          simp only [List.length_cons] at hl
          omega
        have e1 : i + 1 + k' = i + (k' + 1) := by omega
        have e2 : flipColor^[k'] (flipColor color) = flipColor^[k' + 1] color :=
          (Function.iterate_succ_apply flipColor k' color).symm
        simp only [buildRows, if_neg hi, List.getElem_cons_succ]
        rw [ih (i + 1) k' (flipColor color) hk' hl', e1, e2]

theorem flipColor_iter_B (k : Nat) :
    flipColor^[k] ("B") = if k % 2 = 0 then "B" else "W" := by
  induction k with
  | zero => rfl
  | succ n ih =>
    rw [Function.iterate_succ_apply', ih]
    by_cases hn : n % 2 = 0
    · have h2 : ¬((n + 1) % 2 = 0) := by omega
      simp [hn, h2, flipColor]
    · have h2 : (n + 1) % 2 = 0 := by omega
      simp only [if_neg hn, if_pos h2, flipColor]
      rw [if_neg (by decide)]

/-! ### Helper lemmas: lists and strings -/

theorem string_data_append (a b : String) : (a ++ b).data = a.data ++ b.data := by
  cases a
  cases b
  rfl

theorem foldl_append_data (L : List String) :
    ∀ (acc : String),
      (L.foldl (fun r s => r ++ s) acc).data = acc.data ++ (L.map String.data).flatten := by
  induction L with
  | nil => intro acc; simp
  | cons s L ih =>
    intro acc
    simp only [List.foldl_cons, List.map_cons, List.flatten_cons, ih, string_data_append,
      List.append_assoc]

theorem string_join_data (L : List String) :
    (String.join L).data = (L.map String.data).flatten := by
  unfold String.join
  rw [foldl_append_data]
  rfl

theorem mem_join_data (L : List String) (c : Char) (hc : c ∈ (String.join L).data) :
    ∃ m ∈ L, c ∈ m.data := by
  rw [string_join_data, List.mem_flatten] at hc
  obtain ⟨l', hl', hcl⟩ := hc
  rw [List.mem_map] at hl'
  obtain ⟨m, hm, rfl⟩ := hl'
  exact ⟨m, hm, hcl⟩

theorem append_one_iff (b a : List String) :
    (∃ m, a = b ++ [m]) ↔ (a.length = b.length + 1 ∧ a.take b.length = b) := by
  constructor
  · rintro ⟨m, rfl⟩
    refine ⟨by simp, ?_⟩
    exact List.take_left b [m]
  · rintro ⟨h1, h2⟩
    have h3 : a = a.take b.length ++ a.drop b.length := (List.take_append_drop _ _).symm
    have h4 : (a.drop b.length).length = 1 := by
      rw [List.length_drop, h1]
      omega
    obtain ⟨m, hm⟩ := List.length_eq_one.mp h4
    refine ⟨m, ?_⟩
    rw [h3, h2, hm]

/-! ### Helper lemmas: card emission and move extraction -/

theorem cardEvents_mem (moves : List String) (bl : List Row) (seq sol : String)
    (h : Event.card seq sol ∈ cardEvents moves bl) :
    ∃ b, b ∈ bl ∧ sol = b.best_move_before ∧
      seq = String.join (moves.take (b.index - 1)) := by
  induction bl with
  | nil => simp [cardEvents] at h
  | cons b rest ih =>
    by_cases hb : b.best_move_before = "" ∨ b.best_move_before = "-"
    · rw [cardEvents, if_pos hb] at h
      obtain ⟨b', h1, h2, h3⟩ := ih h
      exact ⟨b', List.mem_cons_of_mem b h1, h2, h3⟩
    · rw [cardEvents, if_neg hb] at h
      rcases List.mem_cons.mp h with h | h
      · rw [Event.card.injEq] at h
        exact ⟨b, List.mem_cons_self b rest, h.2, h.1⟩
      · obtain ⟨b', h1, h2, h3⟩ := ih h
        exact ⟨b', List.mem_cons_of_mem b h1, h2, h3⟩

theorem cardEvents_card (moves : List String) (bl : List Row) (ev : Event)
    (h : ev ∈ cardEvents moves bl) :
    (∃ s m, ev = Event.card s m) ∧ ev ≠ Event.deleteFile := by
  induction bl with
  | nil => simp [cardEvents] at h
  | cons b rest ih =>
    by_cases hb : b.best_move_before = "" ∨ b.best_move_before = "-"
    · rw [cardEvents, if_pos hb] at h
      exact ih h
    · rw [cardEvents, if_neg hb] at h
      rcases List.mem_cons.mp h with h | h
      · subst h
        exact ⟨⟨_, _, rfl⟩, by simp⟩
      · exact ih h

theorem findMoves_shape :
    ∀ (n : Nat) (l : List Char), l.length ≤ n →
      ∀ (prev : Option Char) (m : String), m ∈ findMoves prev l →
        ∃ c d, m = String.mk [c, d] ∧ ('A' ≤ c ∧ c ≤ 'H') ∧ ('1' ≤ d ∧ d ≤ '8') := by
  intro n
  induction n with
  | zero =>
    intro l hl prev m hm
    have h0 : l = [] := List.length_eq_zero.mp (Nat.le_zero.mp hl)
    subst h0
    simp [findMoves] at hm
  | succ n ih =>
    intro l hl prev m hm
    cases l with
    | nil => simp [findMoves] at hm
    | cons c l' =>
      cases l' with
      | nil => simp [findMoves] at hm
      | cons d rest =>
        rw [findMoves] at hm
        by_cases hcond :
            (isUpLetter c && isRowDigit d && !prevIsWord prev && !nextIsWord rest) = true
        · rw [if_pos hcond] at hm
          rcases List.mem_cons.mp hm with h | h
          · subst h
            simp only [Bool.and_eq_true] at hcond
            have hc : ('A' ≤ c ∧ c ≤ 'H') := by
              have := hcond.1.1.1
              simp only [isUpLetter, Bool.and_eq_true, decide_eq_true_eq] at this
              exact this
            have hd : ('1' ≤ d ∧ d ≤ '8') := by
              have := hcond.1.1.2
              simp only [isRowDigit, Bool.and_eq_true, decide_eq_true_eq] at this
              exact this
            exact ⟨c, d, rfl, hc, hd⟩
          · refine ih rest ?_ (some d) m h
            simp only [List.length_cons] at hl
            omega
        · rw [if_neg hcond] at hm
          refine ih (d :: rest) ?_ (some c) m hm
          simp only [List.length_cons] at hl ⊢
          omega

theorem pyFindMoves_shape (text : String) (m : String) (hm : m ∈ pyFindMoves text) :
    ∃ c d, m = String.mk [c, d] ∧ ('A' ≤ c ∧ c ≤ 'H') ∧ ('1' ≤ d ∧ d ≤ '8') :=
  findMoves_shape ((pyUpper text).data).length _ le_rfl none m hm

/-! ### Claim theorems -/

/-- Claim C7: for every raw output text, parse (a total function here, so
it cannot raise) returns the uppercased coordinate and the `int()` value
of the score capture taken from the first line matching the pattern, and
returns (none, none) when no line matches; a non-integer score capture
gives a missing score (`pyInt` returns an `Option`, never an exception). -/
theorem C7_parse_first_match (out : String) :
    ((∀ l ∈ pySplitlines out, matchHintLine l.data = none) →
      parse_hint_output out = (none, none)) ∧
    (∀ (pre : List String) (line : String) (post : List String) (g1 g2 : List Char),
      pySplitlines out = pre ++ line :: post →
      (∀ l ∈ pre, matchHintLine l.data = none) →
      matchHintLine line.data = some (g1, g2) →
      parse_hint_output out = (some (pyUpper (String.mk g2)), pyInt g1)) := by
  constructor
  · intro h
    unfold parse_hint_output
    have hs := parseLines_skip (pySplitlines out) [] h
    simpa using hs
  · intro pre line post g1 g2 hsplit hpre hmatch
    unfold parse_hint_output
    rw [hsplit, parseLines_skip pre (line :: post) hpre]
    simp [parseLines, hmatch]

/-- Witness for C7 at a concrete output: a noise line followed by a hint
line; the first matching line's captures are returned. -/
theorem C7_witness :
    matchHintLine ("x 3@4% -12 b5").data = some (['-', '1', '2'], ['b', '5']) ∧
    parse_hint_output ("junk\nx 3@4% -12 b5") = (some ("B5"), some (-12)) :=
  ⟨rfl,
    (C7_parse_first_match ("junk\nx 3@4% -12 b5")).2 (["junk"]) ("x 3@4% -12 b5") []
      ['-', '1', '2'] ['b', '5'] rfl
      (by
        intro l hl
        rw [List.mem_singleton] at hl
        subst hl
        rfl)
      rfl⟩

/-- Claim C10: the parser's two results are present or absent together;
whenever a line matches, the score capture is a valid signed integer
literal, so the score-parse-failure branch cannot fire. -/
theorem C10_parse_both_or_neither (output : String) :
    parse_hint_output output = (none, none) ∨
    ∃ m s, parse_hint_output output = (some m, some s) := by
  unfold parse_hint_output
  generalize pySplitlines output = lines
  induction lines with
  | nil => exact Or.inl rfl
  | cons line rest ih =>
    cases hm : matchHintLine line.data with
    | none => simpa [parseLines, hm] using ih
    | some p =>
      obtain ⟨g1, g2⟩ := p
      obtain ⟨n, hn⟩ := matchHintLine_int _ _ _ hm
      exact Or.inr ⟨pyUpper (String.mk g2), n, by simp [parseLines, hm, hn]⟩

/-- Claim C5: for every fixed record list and every integer threshold, a
record is classified as a blunder exactly when its swing is at least the
threshold - a plain inequality filter with no smoothing, game-phase
adjustment, or deduplication - and `analyze_game` classifies with exactly
this filter at the configured threshold. -/
theorem C5_blunder_iff_threshold :
    (∀ (threshold : Int) (rows : List Row) (r : Row),
      r ∈ blunderFilter threshold rows ↔ (r ∈ rows ∧ threshold ≤ r.delta)) ∧
    (∀ (f : String → String) (moves : List String) (rows bl : List Row),
      analyze_game (pureOracle f) moves = Except.ok (rows, bl) →
      bl = blunderFilter EVAL_SWING_THRESHOLD rows) := by
  constructor
  · intro threshold rows r
    simp [blunderFilter, List.mem_filter]
  · intro f moves rows bl h
    rw [analyze_game_pure, Except.ok.injEq, Prod.mk.injEq] at h
    obtain ⟨h1, h2⟩ := h
    subst h1
    subst h2
    rfl

/-- Witness for C5: a record of swing 14 qualifies at threshold 10, and a
concrete run's blunder list is the filter of its rows. -/
theorem C5_witness :
    (rowSeven ∈ blunderFilter EVAL_SWING_THRESHOLD [rowSeven]) ∧
    [rowSeven] = blunderFilter EVAL_SWING_THRESHOLD [rowSeven] :=
  ⟨(C5_blunder_iff_threshold.1 EVAL_SWING_THRESHOLD [rowSeven] rowSeven).mpr
      ⟨List.mem_singleton.mpr rfl, by decide⟩,
    C5_blunder_iff_threshold.2 (fun _ => "s 1@1% 7 A1") (["A1"]) [rowSeven] [rowSeven] rfl⟩

/-- Claim C6: mover identity alternates strictly regardless of evaluator
responses; the record at position k (before-prefix length k) is "B" for
even k and "W" for odd k. -/
theorem C6_color_alternates (f : String → String) (moves : List String)
    (rows bl : List Row) (h : analyze_game (pureOracle f) moves = Except.ok (rows, bl))
    (k : Nat) (hk : k < rows.length) :
    rows[k].color = if k % 2 = 0 then "B" else "W" := by
  rw [analyze_game_pure, Except.ok.injEq, Prod.mk.injEq] at h
  obtain ⟨h1, h2⟩ := h
  subst h1
  have hl : k < moves.length := by
    rw [buildRows_length] at hk
    omega
  rw [buildRows_get f moves moves 0 k ("B") hk hl]
  simp [pureRow, flipColor_iter_B]

/-- Witness for C6 at a concrete run: under an always-unparseable
evaluator the ply-1 record is attributed to "B". -/
theorem C6_witness :
    (analyze_game (pureOracle (fun _ => "")) (["A1"]) = Except.ok ([rowZero], [])) ∧
    ([rowZero] : List Row)[0].color = if 0 % 2 = 0 then "B" else "W" :=
  ⟨rfl, C6_color_alternates (fun _ => "") (["A1"]) [rowZero] [] rfl 0 (by decide)⟩

/-- Counterexample to claim C4 as stated: on a 17-move sequence the
analyzer produces only 16 records, not one per ply of the sequence - the
`i >= 16` break is a hard cap the claim denies. -/
theorem C4_counterexample : ¬specClaimC4 := by
  intro h
  have h17 := (h (fun _ => "") (List.replicate 17 ("A1")) _ _
    (analyze_game_pure (fun _ => "") (List.replicate 17 ("A1")))).1
  rw [buildRows_length] at h17
  simp only [List.length_replicate] at h17
  omega

/-- Claim C4 as amended: `analyze_game` takes no ply-limit parameter and
evaluates exactly the plies 1 up to min(len(sequence), 16), in strictly
increasing order; the 16-ply cap is hard-coded. -/
theorem C4_sixteen_ply_cap (f : String → String) (moves : List String)
    (rows bl : List Row)
    (h : analyze_game (pureOracle f) moves = Except.ok (rows, bl)) :
    rows.length = min moves.length 16 ∧
    ∀ k (hk : k < rows.length), rows[k].index = k + 1 := by
  rw [analyze_game_pure, Except.ok.injEq, Prod.mk.injEq] at h
  obtain ⟨h1, h2⟩ := h
  subst h1
  constructor
  · rw [buildRows_length]
  · intro k hk
    have hl : k < moves.length := by
      rw [buildRows_length] at hk
      omega
    rw [buildRows_get f moves moves 0 k ("B") hk hl]
    simp [pureRow]

/-- Witness for the amended C4 at a concrete run: one move, one record. -/
theorem C4_witness :
    (analyze_game (pureOracle (fun _ => "")) (["A1"]) = Except.ok ([rowZero], [])) ∧
    ([rowZero] : List Row).length = min ((["A1"]) : List String).length 16 :=
  ⟨rfl, (C4_sixteen_ply_cap (fun _ => "") (["A1"]) [rowZero] [] rfl).1⟩

/-- Counterexample to claim C1 as stated: under `edaxStubC1` the
before-position parse of ply 1 yields no score, yet the analyzer still
produces a record for that ply (scores defaulted to 0) and the record
qualifies as a blunder, so the inconclusive ply is neither scored from
two parsed values nor excluded from blunder consideration. -/
theorem C1_counterexample : ¬specClaimC1 := by
  intro h
  have h2 := h edaxStubC1 (["A1"]) _ _ (analyze_game_pure edaxStubC1 (["A1"])) 0 (by decide)
  rcases h2 with ⟨sb, sa, hsb, hsa, hrec⟩ | h2
  · rw [show (parse_hint_output (edaxStubC1 (beforeScript (["A1"]) 0))).2 = none from rfl]
      at hsb
    exact Option.noConfusion hsb
  · exact h2 rowC1 (by decide) rfl

/-- Claim C1 as amended: every analyzed ply yields a record - records are
never dropped; a parse with a missing score contributes a default of 0,
the record's swing is exactly the sum of the two defaulted scores, and
the record stays in blunder consideration under the threshold rule. -/
theorem C1_records_defaulted (f : String → String) (moves : List String)
    (rows bl : List Row)
    (h : analyze_game (pureOracle f) moves = Except.ok (rows, bl)) :
    rows.length = min moves.length 16 ∧
    ∀ k (hk : k < rows.length),
      rows[k].eval_best_move = ((parse_hint_output (f (beforeScript moves k))).2).getD 0 ∧
      rows[k].eval_after_reply = ((parse_hint_output (f (afterScript moves k))).2).getD 0 ∧
      rows[k].delta = rows[k].eval_best_move + rows[k].eval_after_reply ∧
      (rows[k] ∈ bl ↔ EVAL_SWING_THRESHOLD ≤ rows[k].delta) := by
  rw [analyze_game_pure, Except.ok.injEq, Prod.mk.injEq] at h
  obtain ⟨h1, h2⟩ := h
  subst h1
  subst h2
  refine ⟨by rw [buildRows_length], ?_⟩
  intro k hk
  have hl : k < moves.length := by
    rw [buildRows_length] at hk
    omega
  refine ⟨?_, ?_, ?_, ?_⟩
  · rw [buildRows_get f moves moves 0 k ("B") hk hl]
    simp [pureRow]
  · rw [buildRows_get f moves moves 0 k ("B") hk hl]
    simp [pureRow]
  · rw [buildRows_get f moves moves 0 k ("B") hk hl]
    simp [pureRow]
  · simp only [blunderFilter, List.mem_filter]
    simp [List.getElem_mem]

/-- Witness for the amended C1 at a concrete run with an inconclusive
before-parse: the record count still equals the ply count. -/
theorem C1_witness :
    ([rowC1] : List Row).length = min ((["A1"]) : List String).length 16 :=
  (C1_records_defaulted edaxStubC1 (["A1"]) [rowC1] [rowC1] rfl).1

/-- Claim C2 (spec-modelled `evaluateTransition`): for every pair where
the after prefix is not the before prefix with exactly one move appended,
the transition returns BoardFormatError, never a record. -/
theorem C2_board_format_error (f : String → String)
    (beforeMoves afterMoves : List String)
    (h : ¬∃ m, afterMoves = beforeMoves ++ [m]) :
    evaluateTransition f beforeMoves afterMoves =
      Except.error AnalysisError.boardFormatError := by
  have hc : ¬(afterMoves.length = beforeMoves.length + 1 ∧
      afterMoves.take beforeMoves.length = beforeMoves) := fun hc =>
    h ((append_one_iff beforeMoves afterMoves).mpr hc)
  unfold evaluateTransition
  rw [if_neg hc]

/-- Witness for C2 at the spec's scenario 4: before-moves of length 3,
after-moves of length 5. -/
theorem C2_witness :
    evaluateTransition (fun _ => "") (["A1", "B2", "C3"])
      (["A1", "B2", "C3", "D4", "E5"]) =
      Except.error AnalysisError.boardFormatError :=
  C2_board_format_error (fun _ => "") (["A1", "B2", "C3"])
    (["A1", "B2", "C3", "D4", "E5"]) (by
      rintro ⟨m, hm⟩
      have hlen := congrArg List.length hm
      simp only [List.length_append, List.length_cons, List.length_nil] at hlen
      omega)

/-- Claim C8: every card handed to the emitter for a qualifying blunder
carries exactly the separator-free concatenation of the moves strictly
before the blundering ply, every character an uppercase coordinate
letter or a row digit, together with the record's recommended move. -/
theorem C8_card_prefix (f : String → String) (text : String) (evs : List Event)
    (h : process_one_game (pureOracle f) text = Except.ok evs)
    (seq sol : String) (hmem : Event.card seq sol ∈ evs) :
    (∃ rows bl b,
      analyze_game (pureOracle f) (pyFindMoves text) = Except.ok (rows, bl) ∧
      b ∈ bl ∧ sol = b.best_move_before ∧
      seq = String.join ((pyFindMoves text).take (b.index - 1))) ∧
    ∀ c ∈ seq.data, ('A' ≤ c ∧ c ≤ 'H') ∨ ('1' ≤ c ∧ c ≤ '8') := by
  unfold process_one_game at h
  by_cases hmv : pyFindMoves text = []
  · rw [if_pos hmv, Except.ok.injEq] at h
    subst h
    simp at hmem
  · rw [if_neg hmv] at h
    simp only [analyze_game_pure] at h
    rw [Except.ok.injEq] at h
    subst h
    rcases List.mem_append.mp hmem with hm | hm
    · obtain ⟨b, hb, hsol, hseq⟩ := cardEvents_mem _ _ _ _ hm
      constructor
      · exact ⟨_, _, b, analyze_game_pure f (pyFindMoves text), hb, hsol, hseq⟩
      · intro c hc
        subst hseq
        obtain ⟨mv, hmv2, hcm⟩ := mem_join_data _ c hc
        have hmv3 : mv ∈ pyFindMoves text := List.take_subset _ _ hmv2
        obtain ⟨c1, d1, hmstr, hc1, hd1⟩ := pyFindMoves_shape text mv hmv3
        subst hmstr
        simp only [String.mk] at hcm
        rcases List.mem_cons.mp hcm with h1 | h1
        · subst h1
          exact Or.inl hc1
        · rw [List.mem_singleton] at h1
          subst h1
          exact Or.inr hd1
    · rw [List.mem_singleton] at hm
      exact absurd hm (by simp)

/-- Witness for C8 at a concrete run: the blunder at ply 2 of
["C4", "D3"] is emitted with the prefix "C4". -/
theorem C8_witness :
    (process_one_game (pureOracle (fun _ => "s 1@1% 7 A1")) ("C4 D3") =
      Except.ok ([Event.card ("") ("A1"), Event.card ("C4") ("A1"), Event.deleteFile])) ∧
    ((∃ rows bl b,
        analyze_game (pureOracle (fun _ => "s 1@1% 7 A1")) (pyFindMoves ("C4 D3")) =
          Except.ok (rows, bl) ∧
        b ∈ bl ∧ ("A1") = b.best_move_before ∧
        ("C4") = String.join ((pyFindMoves ("C4 D3")).take (b.index - 1))) ∧
      ∀ c ∈ ("C4").data, ('A' ≤ c ∧ c ≤ 'H') ∨ ('1' ≤ c ∧ c ≤ '8')) :=
  ⟨rfl,
    C8_card_prefix (fun _ => "s 1@1% 7 A1") ("C4 D3") _ rfl ("C4") ("A1") (by decide)⟩

/-- Claim C9: whenever moves are found, the trace of `process_one_game`
ends with the file-deletion attempt, which occurs exactly once and only
after every card submission, regardless of whether any blunder was
found. -/
theorem C9_delete_last (f : String → String) (text : String) (evs : List Event)
    (h : process_one_game (pureOracle f) text = Except.ok evs)
    (hmv : pyFindMoves text ≠ []) :
    evs ≠ [] ∧ evs.getLast? = some Event.deleteFile ∧
    ∀ ev ∈ evs.dropLast, (∃ s m, ev = Event.card s m) ∧ ev ≠ Event.deleteFile := by
  unfold process_one_game at h
  rw [if_neg hmv] at h
  simp only [analyze_game_pure] at h
  rw [Except.ok.injEq] at h
  subst h
  refine ⟨by simp, ?_, ?_⟩
  · rw [List.getLast?_concat]
  · intro ev hev
    rw [List.dropLast_concat] at hev
    exact cardEvents_card _ _ ev hev

/-- Witness for C9 at a concrete blunder-free run: the only event is the
deletion, which is last. -/
theorem C9_witness :
    pyFindMoves ("C4") ≠ [] ∧
    ([Event.deleteFile] : List Event).getLast? = some Event.deleteFile :=
  ⟨by decide,
    (C9_delete_last (fun _ => "") ("C4") [Event.deleteFile] rfl (by decide)).2.1⟩

/-- Counterexample to claim C3 as stated: with an unlaunchable evaluator
and a two-file batch, only the first file is processed - the launch
failure aborts the loop of `main`, which has no per-file error handling. -/
theorem C3_counterexample : ¬specClaimC3 := by
  intro h
  exact absurd (h (fun _ => Except.error ()) (["C4", "C4"])) (by decide)

/-- Claim C3 as amended: an evaluator-launch failure while processing one
input file propagates out of `process_one_game` and aborts the entire
batch; the files after the failing one are never processed. -/
theorem C3_launch_failure_aborts_batch (proc : Oracle) (pre : List String)
    (t : String) (rest : List String)
    (hpre : ∀ p ∈ pre, ∃ evs, process_one_game proc p = Except.ok evs)
    (ht : process_one_game proc t = Except.error ()) :
    mainLoop proc (pre ++ t :: rest) = Except.error () ∧
    processedCount proc (pre ++ t :: rest) = pre.length + 1 := by
  induction pre with
  | nil =>
    constructor
    · simp [mainLoop, ht]
    · simp [processedCount, ht]
  | cons p pre ih =>
    obtain ⟨evs, hevs⟩ := hpre p (List.mem_cons_self p pre)
    have ih2 := ih (fun q hq => hpre q (List.mem_cons_of_mem p hq))
    constructor
    · simp only [List.cons_append, mainLoop, hevs, List.append_eq, ih2.1]
    · simp only [List.cons_append, processedCount, hevs, List.append_eq, ih2.2,
        List.length_cons]
      omega

/-- Witness for the amended C3: one healthy no-move file, then a file
whose evaluator launch fails, then one more file; the batch stops after
the second file. -/
theorem C3_witness :
    (process_one_game (fun _ => Except.error ()) ("C4") = Except.error ()) ∧
    (mainLoop (fun _ => Except.error ()) (["x"] ++ ("C4") :: ["C4"]) =
      Except.error ()) ∧
    processedCount (fun _ => Except.error ()) (["x"] ++ ("C4") :: ["C4"]) =
      (["x"] : List String).length + 1 := by
  refine ⟨rfl, ?_, ?_⟩
  · exact (C3_launch_failure_aborts_batch (fun _ => Except.error ()) (["x"]) ("C4")
      (["C4"]) (by
        intro p hp
        rw [List.mem_singleton] at hp
        subst hp
        exact ⟨[], rfl⟩) rfl).1
  · exact (C3_launch_failure_aborts_batch (fun _ => Except.error ()) (["x"]) ("C4")
      (["C4"]) (by
        intro p hp
        rw [List.mem_singleton] at hp
        subst hp
        exact ⟨[], rfl⟩) rfl).2
